import Mathlib

/-!
Verification of the StellarStack daemon core against its specification.

Shallow embedding of the relevant Rust modules of `apps/daemon/src`:

* `system/rate_limiter.rs` — `TokenBucket` (lazy refill, lock-free acquire);
* `stats_buffer.rs`        — `StatsBuffer` (in-memory and Redis backends);
* `system/sink.rs`         — `SinkPool` (ring history + tokio broadcast);
* `environment/docker/stats.rs` — `calculate_cpu`;
* `sftp/handler.rs`        — `handle_realpath` virtual normalization;
* `filesystem/cache.rs`    — `DirectoryCache`;
* `server/backup.rs`       — `create_backup_with_config`, `extract_backup_safe`;
* `server/transfer.rs`     — `receive_transfer_archive`.

Machine integers (`u64`) are modelled as `Nat`; wrap-around is made explicit
as `% 2^64` exactly where the Rust code can overflow (`u64` subtraction of the
window from a timestamp, token addition).  `f64` arithmetic in `calculate_cpu`
is modelled exactly over `ℚ`; on the non-negative values produced there,
Rust's round-half-away-from-zero agrees with Mathlib's `round`
(round-half-up), which is what the model uses.
-/

namespace StellarStack

/-- `2^64`, the modulus of Rust's `u64`. -/
def U64 : Nat := 18446744073709551616

/-- Wrapping `u64` subtraction `a - b` (release-mode Rust semantics) for
`b ≤ 2^64`, on representatives `a < 2^64`. -/
def u64Sub (a b : Nat) : Nat := (a + (U64 - b)) % U64

theorem u64Sub_eq (a b : Nat) (hb : b ≤ a) (ha : a < U64) :
    u64Sub a b = a - b := by
  unfold u64Sub U64 at *
  omega

/-! ## TokenBucket — `system/rate_limiter.rs`

The Rust struct keeps `tokens` and `last_refill` in atomics shared behind
`Arc`; all claims here are about the sequential behaviour of one bucket, so
the state is a plain record and each operation is a state-passing function
taking the current wall time in milliseconds (`current_time_ms()` in the
source) as an explicit argument. -/

structure TokenBucket where
  /-- Current number of available tokens. -/
  tokens : Nat
  /-- Timestamp of last refill (milliseconds since epoch). -/
  lastRefill : Nat
  /-- Maximum tokens (burst capacity). -/
  maxTokens : Nat
  /-- Tokens to add per refill interval. -/
  tokensPerInterval : Nat
  /-- Refill interval in milliseconds. -/
  refillIntervalMs : Nat
  deriving Repr, DecidableEq

namespace TokenBucket

/-- `TokenBucket::new(capacity, rate_per_second)`; `now` is `current_time_ms()`. -/
def new (capacity ratePerSecond now : Nat) : TokenBucket :=
  { tokens := capacity
    lastRefill := now
    maxTokens := capacity
    tokensPerInterval := ratePerSecond
    refillIntervalMs := 1000 }

/-- `TokenBucket::refill`.  `now.saturating_sub(last)` is `Nat` subtraction;
after the guard the plain `now - last` of the source cannot underflow.  The
`u64` addition `current + tokens_to_add` is taken `% 2^64`. -/
def refill (b : TokenBucket) (now : Nat) : TokenBucket :=
  if b.refillIntervalMs ≤ now - b.lastRefill then
    let intervalsPassed := (now - b.lastRefill) / b.refillIntervalMs
    let tokensToAdd := intervalsPassed * b.tokensPerInterval
    { b with
      lastRefill := now
      tokens := min ((b.tokens + tokensToAdd) % U64) b.maxTokens }
  else b

/-- `TokenBucket::try_acquire(tokens_needed)`: refill, then compare-and-deduct. -/
def tryAcquire (b : TokenBucket) (now tokensNeeded : Nat) : Bool × TokenBucket :=
  let b := b.refill now
  if tokensNeeded ≤ b.tokens then
    (true, { b with tokens := b.tokens - tokensNeeded })
  else
    (false, b)

/-- Run a sequence of `try_acquire` calls; each call is a pair
`(now_ms, tokens_needed)`. -/
def runCalls (b : TokenBucket) (calls : List (Nat × Nat)) : TokenBucket :=
  calls.foldl (fun b c => (b.tryAcquire c.1 c.2).2) b

theorem refill_tokens_le (b : TokenBucket) (now : Nat)
    (h : b.tokens ≤ b.maxTokens) : (b.refill now).tokens ≤ b.maxTokens := by
  unfold refill
  split
  · exact min_le_right _ _
  · exact h

theorem refill_max_eq (b : TokenBucket) (now : Nat) :
    (b.refill now).maxTokens = b.maxTokens := by
  unfold refill
  split <;> rfl

theorem tryAcquire_tokens_le (b : TokenBucket) (now n : Nat)
    (h : b.tokens ≤ b.maxTokens) :
    (b.tryAcquire now n).2.tokens ≤ b.maxTokens := by
  unfold tryAcquire
  have h1 := refill_tokens_le b now h
  dsimp only
  split
  · simp only
    omega
  · exact h1

theorem tryAcquire_max_eq (b : TokenBucket) (now n : Nat) :
    (b.tryAcquire now n).2.maxTokens = b.maxTokens := by
  unfold tryAcquire
  have := refill_max_eq b now
  dsimp only
  split <;> simpa using this

theorem runCalls_tokens_le (b : TokenBucket) (calls : List (Nat × Nat))
    (h : b.tokens ≤ b.maxTokens) :
    (b.runCalls calls).tokens ≤ (b.runCalls calls).maxTokens := by
  induction calls generalizing b with
  | nil => exact h
  | cons c rest ih =>
      have h1 : (b.tryAcquire c.1 c.2).2.tokens ≤ (b.tryAcquire c.1 c.2).2.maxTokens := by
        rw [tryAcquire_max_eq]
        exact tryAcquire_tokens_le b c.1 c.2 h
      simpa [runCalls] using ih _ h1

theorem runCalls_max_eq (b : TokenBucket) (calls : List (Nat × Nat)) :
    (b.runCalls calls).maxTokens = b.maxTokens := by
  induction calls generalizing b with
  | nil => rfl
  | cons c rest ih =>
      simpa [runCalls, tryAcquire_max_eq] using ih (b.tryAcquire c.1 c.2).2

/-- The token count the specification predicts right after the lazy refill of
a call at time `now`: `floor((now_ms − last_refill_ms) / 1000) × rate` tokens
added, capped at capacity. -/
def specAvail (b : TokenBucket) (now : Nat) : Nat :=
  min (b.tokens + ((now - b.lastRefill) / 1000) * b.tokensPerInterval) b.maxTokens

end TokenBucket

/-- **C4.** Every `try_acquire(n)` call first lazily refills by adding
`floor((now_ms − last_refill_ms) / 1000) × rate` tokens capped at capacity,
then returns `true` and deducts `n` exactly when the refilled token count
is `≥ n`, and `false` otherwise; and after any call sequence starting from
`new(capacity, rate)`, the token count satisfies `0 ≤ tokens ≤ capacity`
(`0 ≤ tokens` holds by the `Nat` carrier). -/
theorem tokenBucket_tryAcquire_spec :
    (∀ (b : TokenBucket) (now n : Nat),
      b.refillIntervalMs = 1000 → b.tokens ≤ b.maxTokens → b.lastRefill ≤ now →
      b.tokens + ((now - b.lastRefill) / 1000) * b.tokensPerInterval < U64 →
      (b.tryAcquire now n).1 = decide (n ≤ b.specAvail now) ∧
      (b.tryAcquire now n).2.tokens =
        (if n ≤ b.specAvail now then b.specAvail now - n else b.specAvail now)) ∧
    (∀ (capacity rate t0 : Nat) (calls : List (Nat × Nat)),
      ((TokenBucket.new capacity rate t0).runCalls calls).tokens ≤ capacity) := by
  constructor
  · intro b now n hiv htok _hle hlt
    have havail : (b.refill now).tokens = b.specAvail now := by
      unfold TokenBucket.refill TokenBucket.specAvail
      rw [hiv]
      split
      · have : (b.tokens + (now - b.lastRefill) / 1000 * b.tokensPerInterval) % U64 =
            b.tokens + (now - b.lastRefill) / 1000 * b.tokensPerInterval :=
          Nat.mod_eq_of_lt hlt
        simp [this]
      · have h0 : (now - b.lastRefill) / 1000 = 0 := by omega
        simp [h0, Nat.min_eq_left htok]
    constructor
    · unfold TokenBucket.tryAcquire
      dsimp only
      rw [havail]
      split <;> simp_all
    · unfold TokenBucket.tryAcquire
      dsimp only
      rw [havail]
      split <;> simp_all
  · intro capacity rate t0 calls
    have h := TokenBucket.runCalls_tokens_le (TokenBucket.new capacity rate t0) calls
      (le_refl _)
    rwa [TokenBucket.runCalls_max_eq] at h

/-- Witness for C4 at a concrete bucket: capacity 10, rate 5, one call at
`now = 2000 ms` asking for 3 tokens, and a concrete two-call sequence. -/
theorem tokenBucket_tryAcquire_spec_witness :
    (((TokenBucket.new 10 5 0).tryAcquire 2000 3).1 =
        decide (3 ≤ (TokenBucket.new 10 5 0).specAvail 2000) ∧
      ((TokenBucket.new 10 5 0).tryAcquire 2000 3).2.tokens =
        (if 3 ≤ (TokenBucket.new 10 5 0).specAvail 2000 then
          (TokenBucket.new 10 5 0).specAvail 2000 - 3
        else (TokenBucket.new 10 5 0).specAvail 2000)) ∧
    ((TokenBucket.new 10 5 0).runCalls [(0, 4), (2000, 11)]).tokens ≤ 10 :=
  ⟨tokenBucket_tryAcquire_spec.1 (TokenBucket.new 10 5 0) 2000 3 rfl (by decide)
      (by decide) (by decide),
    tokenBucket_tryAcquire_spec.2 10 5 0 [(0, 4), (2000, 11)]⟩

/-! ## Stats snapshot

Modelled from the spec: the `Stats` snapshot type lives in
`apps/daemon/src/events` whose main module is not under `src/`; its fields
are `memory_bytes`, `memory_limit_bytes`, `cpu_absolute` (an `f64`, modelled
as `ℚ`), `NetworkStats{rx_bytes, tx_bytes}`, `uptime`, `disk_bytes`,
`disk_limit_bytes` (spec §3, matching the constructor in
`environment/docker/stats.rs`). -/

structure NetworkStats where
  rxBytes : Nat
  txBytes : Nat
  deriving Repr, DecidableEq

structure Stats where
  memoryBytes : Nat
  memoryLimitBytes : Nat
  cpuAbsolute : ℚ
  network : NetworkStats
  uptime : Nat
  diskBytes : Nat
  diskLimitBytes : Nat
  deriving Repr, DecidableEq

/-! ## StatsBuffer — `stats_buffer.rs`

Two backends.  The in-memory backend is a `HashMap<String, VecDeque<StatsEntry>>`
modelled as an association list of per-server deques; the Redis backend is a
sorted set per server (`stats:{uuid}`, score = timestamp) modelled as a list
of `(score, entry)` pairs kept in ascending score order.  Key TTL (`expire`)
and JSON serialisation are not modelled; `push`/`get_history` take the wall
clock (`now` in milliseconds) as an explicit argument. -/

def BUFFER_DURATION_MS : Nat := 180000

def MAX_BUFFER_SIZE : Nat := 180

structure StatsEntry where
  stats : Stats
  timestamp : Nat
  deriving Repr, DecidableEq

abbrev MemoryBuffers := List (String × List StatsEntry)

/-- `buffers.get(uuid)` followed by `unwrap_or_default` / `or_insert(VecDeque::new)`. -/
def lookupBuffer (m : MemoryBuffers) (uuid : String) : List StatsEntry :=
  ((m.find? (fun p => p.1 = uuid)).map (·.2)).getD []

/-- Store the (possibly new) deque for `uuid` back into the map. -/
def insertBuffer (m : MemoryBuffers) (uuid : String) (buf : List StatsEntry) :
    MemoryBuffers :=
  if m.any (fun p => p.1 = uuid) then
    m.map (fun p => if p.1 = uuid then (uuid, buf) else p)
  else
    m ++ [(uuid, buf)]

/-- The deque contents after a push: append the stamped entry, pop entries
older than the 3-minute cutoff from the front (`while front.timestamp <
cutoff`), then enforce the max size (`while len > MAX_BUFFER_SIZE`).  The
cutoff `timestamp - BUFFER_DURATION` is a `u64` subtraction. -/
def pushTrimmed (m : MemoryBuffers) (uuid : String) (s : Stats) (now : Nat) :
    List StatsEntry :=
  let entry : StatsEntry := { stats := s, timestamp := now }
  let buffer := lookupBuffer m uuid ++ [entry]
  let cutoff := u64Sub now BUFFER_DURATION_MS
  let buffer := buffer.dropWhile (fun e => e.timestamp < cutoff)
  buffer.drop (buffer.length - MAX_BUFFER_SIZE)

/-- `StatsBuffer::push`, in-memory backend. -/
def memPush (m : MemoryBuffers) (uuid : String) (s : Stats) (now : Nat) :
    MemoryBuffers :=
  insertBuffer m uuid (pushTrimmed m uuid s now)

/-- `StatsBuffer::get_history`, in-memory backend: clone the stored deque;
no clock is consulted and nothing is filtered or evicted. -/
def memGetHistory (m : MemoryBuffers) (uuid : String) : List StatsEntry :=
  lookupBuffer m uuid

/-- Redis sorted set for one `stats:{uuid}` key, ascending by score. -/
abbrev RedisZSet := List (Nat × StatsEntry)

/-- `ZADD`: insert keeping ascending score order. -/
def zinsert (score : Nat) (e : StatsEntry) : RedisZSet → RedisZSet
  | [] => [(score, e)]
  | p :: rest =>
      if score < p.1 then (score, e) :: p :: rest else p :: zinsert score e rest

/-- `ZREMRANGEBYSCORE key 0 cutoff` (both bounds inclusive). -/
def zremUpTo (cutoff : Nat) (z : RedisZSet) : RedisZSet :=
  z.filter (fun p => cutoff < p.1)

/-- `ZRANGEBYSCORE key lo +inf` (lower bound inclusive). -/
def zrangeFrom (lo : Nat) (z : RedisZSet) : List StatsEntry :=
  (z.filter (fun p => lo ≤ p.1)).map (·.2)

/-- `StatsBuffer::push`, Redis backend: `ZADD` the stamped entry with its
timestamp as score, then remove every member with score `≤ timestamp − window`. -/
def redisPush (z : RedisZSet) (s : Stats) (now : Nat) : RedisZSet :=
  let entry : StatsEntry := { stats := s, timestamp := now }
  let z := zinsert now entry z
  zremUpTo (u64Sub now BUFFER_DURATION_MS) z

/-- `StatsBuffer::get_history`, Redis backend: `ZRANGEBYSCORE key cutoff +inf`. -/
def redisGetHistory (z : RedisZSet) (now : Nat) : List StatsEntry :=
  zrangeFrom (u64Sub now BUFFER_DURATION_MS) z

/-- Storing a deque under `uuid` makes it the deque found for `uuid`. -/
theorem find?_insertBuffer (m : MemoryBuffers) (uuid : String)
    (buf : List StatsEntry) :
    (insertBuffer m uuid buf).find? (fun p => p.1 = uuid) = some (uuid, buf) := by
  unfold insertBuffer
  split
  · rename_i hin
    induction m with
    | nil => simp at hin
    | cons q rest ih =>
        by_cases hq : q.1 = uuid
        · simp [List.find?_cons, hq]
        · have hin' : rest.any (fun p => p.1 = uuid) = true := by
            rcases List.any_eq_true.1 hin with ⟨p, hp, hpu⟩
            rcases List.mem_cons.1 hp with rfl | hmem
            · exact absurd (by simpa using hpu) hq
            · exact List.any_eq_true.2 ⟨p, hmem, hpu⟩
          simpa [List.find?_cons, hq] using ih hin'
  · rename_i hout
    have hnone : m.find? (fun p => p.1 = uuid) = none := by
      rw [List.find?_eq_none]
      intro p hp hpu
      exact hout (List.any_eq_true.2 ⟨p, hp, hpu⟩)
    rw [List.find?_append, hnone]
    simp

theorem lookupBuffer_insertBuffer (m : MemoryBuffers) (uuid : String)
    (buf : List StatsEntry) :
    lookupBuffer (insertBuffer m uuid buf) uuid = buf := by
  unfold lookupBuffer
  rw [find?_insertBuffer]
  rfl

/-- Any element surviving `dropWhile (· < cutoff)` of a timestamp-sorted list
is `≥ cutoff`. -/
theorem mem_dropWhile_lt_imp_ge (cutoff : Nat) (l : List StatsEntry)
    (hs : l.Pairwise (fun a b => a.timestamp ≤ b.timestamp)) :
    ∀ e ∈ l.dropWhile (fun e => e.timestamp < cutoff), cutoff ≤ e.timestamp := by
  induction l with
  | nil => intro e he; simp [List.dropWhile] at he
  | cons a rest ih =>
      intro e he
      rw [List.dropWhile_cons] at he
      split at he
      · exact ih hs.of_cons e he
      · rename_i h
        simp only [decide_eq_true_eq] at h
        rcases List.mem_cons.1 he with rfl | hmem
        · omega
        · have := (List.pairwise_cons.1 hs).1 e hmem
          omega

/-- Sample snapshot used by counterexamples and witnesses. -/
def sampleStats : Stats :=
  { memoryBytes := 0
    memoryLimitBytes := 0
    cpuAbsolute := 0
    network := { rxBytes := 0, txBytes := 0 }
    uptime := 0
    diskBytes := 0
    diskLimitBytes := 0 }

/-- **C5, counterexample.** One in-memory push at `t = 200000 ms`; a
`get_history` read at wall time `600000 ms` still returns the entry even
though its timestamp is strictly older than `now − window`: the in-memory
read path consults no clock and evicts nothing. -/
theorem statsBuffer_read_eviction_counterexample :
    memGetHistory (memPush [] "s" sampleStats 200000) "s" =
      [{ stats := sampleStats, timestamp := 200000 }] ∧
    200000 < 600000 - BUFFER_DURATION_MS := by
  constructor
  · rfl
  · decide

/-- **C5, amended.** Entries strictly older than the 3-minute window are
evicted on every *push* in both backends (for the in-memory backend,
provided the stored deque is timestamp-sorted with entries no newer than the
push time, as produced by a monotone clock); the Redis backend's
`get_history` only returns entries with `timestamp ≥ now − window`; the
in-memory backend performs no eviction or filtering on read. -/
theorem statsBuffer_window_eviction :
    (∀ (m : MemoryBuffers) (uuid : String) (s : Stats) (now : Nat),
      (lookupBuffer m uuid).Pairwise (fun a b => a.timestamp ≤ b.timestamp) →
      (∀ e ∈ lookupBuffer m uuid, e.timestamp ≤ now) →
      ∀ e ∈ lookupBuffer (memPush m uuid s now) uuid,
        u64Sub now BUFFER_DURATION_MS ≤ e.timestamp) ∧
    (∀ (z : RedisZSet) (s : Stats) (now : Nat),
      ∀ p ∈ redisPush z s now, u64Sub now BUFFER_DURATION_MS < p.1) ∧
    (∀ (z : RedisZSet) (now : Nat),
      (∀ p ∈ z, p.1 = p.2.timestamp) →
      ∀ e ∈ redisGetHistory z now, u64Sub now BUFFER_DURATION_MS ≤ e.timestamp) := by
  refine ⟨?_, ?_, ?_⟩
  · intro m uuid s now hsorted hle e he
    set cutoff := u64Sub now BUFFER_DURATION_MS with hc
    rw [memPush, lookupBuffer_insertBuffer] at he
    unfold pushTrimmed at he
    rw [← hc] at he
    have he' := List.mem_of_mem_drop he
    have hsorted' :
        (lookupBuffer m uuid ++ [({ stats := s, timestamp := now } : StatsEntry)]).Pairwise
          (fun a b => a.timestamp ≤ b.timestamp) := by
      rw [List.pairwise_append]
      refine ⟨hsorted, List.pairwise_singleton _ _, ?_⟩
      intro a ha b hb
      rcases List.mem_singleton.1 hb with rfl
      exact hle a ha
    exact mem_dropWhile_lt_imp_ge cutoff _ hsorted' e he'
  · intro z s now p hp
    unfold redisPush zremUpTo at hp
    have := List.mem_filter.1 hp
    simpa using this.2
  · intro z now hwf e he
    unfold redisGetHistory zrangeFrom at he
    rcases List.mem_map.1 he with ⟨p, hp, rfl⟩
    have h1 := List.mem_filter.1 hp
    have h2 := hwf p h1.1
    have h3 : u64Sub now BUFFER_DURATION_MS ≤ p.1 := by simpa using h1.2
    omega

/-- Witness for the amended C5 at one concrete push/read at `t = 200000 ms`. -/
theorem statsBuffer_window_eviction_witness :
    u64Sub 200000 BUFFER_DURATION_MS ≤ 200000 ∧
      u64Sub 200000 BUFFER_DURATION_MS < 200000 ∧
      u64Sub 200000 BUFFER_DURATION_MS ≤ 200000 := by
  refine ⟨?_, ?_, ?_⟩
  · exact statsBuffer_window_eviction.1 [] "s" sampleStats 200000
      (by simp [lookupBuffer]) (by simp [lookupBuffer])
      { stats := sampleStats, timestamp := 200000 } (by decide)
  · exact statsBuffer_window_eviction.2.1 [] sampleStats 200000
      (200000, { stats := sampleStats, timestamp := 200000 }) (by decide)
  · exact statsBuffer_window_eviction.2.2
      [(200000, { stats := sampleStats, timestamp := 200000 })] 200000 (by decide)
      { stats := sampleStats, timestamp := 200000 } (by decide)

/-! ## CPU percentage — `environment/docker/stats.rs`

`calculate_cpu` works on `bollard::container::CPUStats`; only the fields the
function reads are modelled.  All `u64` deltas use `saturating_sub` (= `Nat`
subtraction) and the `f64` arithmetic is modelled exactly over `ℚ`.  On the
non-negative operands produced here, Rust's `f64::round`
(half-away-from-zero) agrees with Mathlib's `round` (half-up). -/

structure CpuUsage where
  totalUsage : Nat
  percpuUsage : Option (List Nat)
  deriving Repr, DecidableEq

structure CPUStats where
  cpuUsage : CpuUsage
  systemCpuUsage : Option Nat
  onlineCpus : Option Nat
  deriving Repr, DecidableEq

/-- `(percent * 1000.0).round() / 1000.0`: round to three decimal places. -/
def round3 (q : ℚ) : ℚ := (round (q * 1000) : ℚ) / 1000

/-- The `cpus` factor: `online_cpus`, else `percpu_usage.len()`, else `1`. -/
def cpusFactor (stats : CPUStats) : ℚ :=
  match stats.onlineCpus with
  | some c => (c : ℚ)
  | none =>
      match stats.cpuUsage.percpuUsage with
      | some v => (v.length : ℚ)
      | none => 1

/-- `calculate_cpu(stats, prev_cpu, prev_system)`. -/
def calculate_cpu (stats : CPUStats) (prevCpu prevSystem : Option Nat) : ℚ :=
  let currentCpu := stats.cpuUsage.totalUsage
  let currentSystem := stats.systemCpuUsage.getD 0
  match prevCpu, prevSystem with
  | some prevC, some prevS =>
      let cpuDelta : Nat := currentCpu - prevC
      let systemDelta : Nat := currentSystem - prevS
      if 0 < systemDelta ∧ 0 < cpuDelta then
        round3 ((cpuDelta : ℚ) / (systemDelta : ℚ) * 100 * cpusFactor stats)
      else 0
  | _, _ => 0

/-- **C8.** With a previous sample available and a positive system delta,
`calculate_cpu` returns `(cpu_delta / system_delta) × 100 × cpus` rounded to
three decimal places, with `cpus = online_cpus`, else `len(percpu_usage)`,
else 1; in particular S1 (`cpu_usage=200000000, system_cpu=1000000000,
cpus=4, prev_cpu=100000000, prev_system=500000000`) yields exactly `80.000`. -/
theorem calculate_cpu_spec :
    (∀ (stats : CPUStats) (prevC prevS : Nat),
      prevS < stats.systemCpuUsage.getD 0 →
      calculate_cpu stats (some prevC) (some prevS) =
        round3 (((stats.cpuUsage.totalUsage - prevC : Nat) : ℚ) /
            ((stats.systemCpuUsage.getD 0 - prevS : Nat) : ℚ) * 100 *
          cpusFactor stats)) ∧
    calculate_cpu
        { cpuUsage := { totalUsage := 200000000, percpuUsage := none }
          systemCpuUsage := some 1000000000
          onlineCpus := some 4 }
        (some 100000000) (some 500000000) = 80 := by
  constructor
  · intro stats prevC prevS hS
    unfold calculate_cpu
    dsimp only
    split
    · rfl
    · rename_i hguard
      have hcd : stats.cpuUsage.totalUsage - prevC = 0 := by omega
      rw [hcd]
      simp [round3]
  · show (if 0 < 1000000000 - 500000000 ∧ 0 < (200000000 - 100000000 : Nat) then
        round3 (((200000000 - 100000000 : Nat) : ℚ) /
            ((1000000000 - 500000000 : Nat) : ℚ) * 100 *
          cpusFactor
            { cpuUsage := { totalUsage := 200000000, percpuUsage := none }
              systemCpuUsage := some 1000000000
              onlineCpus := some 4 })
      else 0) = 80
    rw [if_pos (by omega)]
    have harg :
        (((200000000 - 100000000 : Nat) : ℚ) / ((1000000000 - 500000000 : Nat) : ℚ) *
          100 * cpusFactor
            { cpuUsage := { totalUsage := 200000000, percpuUsage := none }
              systemCpuUsage := some 1000000000
              onlineCpus := some 4 }) = 80 := by
      unfold cpusFactor
      norm_num
    rw [harg]
    unfold round3
    rw [show ((80 : ℚ) * 1000) = ((80000 : ℤ) : ℚ) by norm_num, round_intCast]
    norm_num

/-- Witness for C8 at the S1 sample. -/
theorem calculate_cpu_spec_witness :
    calculate_cpu
        { cpuUsage := { totalUsage := 200000000, percpuUsage := none }
          systemCpuUsage := some 1000000000
          onlineCpus := some 4 }
        (some 100000000) (some 500000000) =
      round3 (((200000000 - 100000000 : Nat) : ℚ) /
          ((1000000000 - 500000000 : Nat) : ℚ) * 100 *
        cpusFactor
          { cpuUsage := { totalUsage := 200000000, percpuUsage := none }
            systemCpuUsage := some 1000000000
            onlineCpus := some 4 }) :=
  calculate_cpu_spec.1
    { cpuUsage := { totalUsage := 200000000, percpuUsage := none }
      systemCpuUsage := some 1000000000
      onlineCpus := some 4 }
    100000000 500000000 (by norm_num)

/-! ## SFTP REALPATH — `sftp/handler.rs`

`handle_realpath` parses the request path with Rust's `Path::components()`
and folds the components against an empty stack: `RootDir` clears,
`ParentDir` pops, `Normal` pushes, everything else (`CurDir`) is ignored.
Paths are Unix strings; splitting on `/` is done by a structurally recursive
splitter over the character list so that concrete inputs evaluate. -/

inductive PathComponent where
  | rootDir
  | parentDir
  | normal (name : String)
  deriving Repr, DecidableEq

/-- Split a character list on `/` (the semantics of `String::split('/')`):
`""` gives `[""]`, separators at the ends give empty segments. -/
def splitOnSlash : List Char → List (List Char)
  | [] => [[]]
  | c :: rest =>
      match splitOnSlash rest with
      | [] => [[]]
      | seg :: segs =>
          if c = '/' then [] :: seg :: segs else (c :: seg) :: segs

/-- The `/`-separated segments of a path string. -/
def pathSegments (path : String) : List String :=
  (splitOnSlash path.data).map String.mk

/-- A non-root segment as a `Path::components()` item: empty and `.`
segments yield nothing (Rust normalizes `.` away except as a leading
`CurDir`, which the REALPATH fold ignores via its `_ => {}` arm), `..`
yields `ParentDir`, anything else `Normal`. -/
def segComponent (s : String) : Option PathComponent :=
  if s = "" ∨ s = "." then none
  else if s = ".." then some PathComponent.parentDir
  else some (PathComponent.normal s)

/-- Rust `Path::components()` of a Unix path string, restricted to the
components the REALPATH fold distinguishes. -/
def rustComponents (path : String) : List PathComponent :=
  (if path.data.head? = some '/' then [PathComponent.rootDir] else []) ++
    (pathSegments path).filterMap segComponent

/-- One step of the `handle_realpath` component fold. -/
def realpathStep (comps : List String) : PathComponent → List String
  | PathComponent.rootDir => []
  | PathComponent.parentDir => comps.dropLast
  | PathComponent.normal name => comps ++ [name]

/-- The component stack `handle_realpath` accumulates. -/
def realpathComponents (path : String) : List String :=
  (rustComponents path).foldl realpathStep []

/-- `components.join("/")` (the `format!("/{}", ...)` adds the leading `/`). -/
def joinSlash : List String → String
  | [] => ""
  | [s] => s
  | s :: rest => s ++ "/" ++ joinSlash rest

/-- The normalized virtual path `handle_realpath` answers with. -/
def handleRealpathNormalize (path : String) : String :=
  if path = "" ∨ path = "." then "/"
  else
    let components := realpathComponents path
    if components.isEmpty then "/"
    else "/" ++ joinSlash components

/-- Modelled from the spec: virtual normalization as the claim words it —
drop `.` segments, let `..` discard the previous component (`..` at the
root is a no-op, since popping an empty stack does nothing), treat a
leading `/` as the root, and answer `/` when no components remain. -/
def realpathSpecNormalize (path : String) : String :=
  let segs := (pathSegments path).filter (fun s => ¬(s = "" ∨ s = "."))
  let collapsed := segs.foldl
    (fun acc s => if s = ".." then acc.dropLast else acc ++ [s]) []
  if collapsed.isEmpty then "/" else "/" ++ joinSlash collapsed

/-- Folding the handler's step over the parsed components computes the
spec-side collapse of the raw segments. -/
theorem foldl_filterMap_segComponent (l : List String) (acc : List String) :
    (l.filterMap segComponent).foldl realpathStep acc =
      (l.filter (fun s => ¬(s = "" ∨ s = "."))).foldl
        (fun acc s => if s = ".." then acc.dropLast else acc ++ [s]) acc := by
  induction l generalizing acc with
  | nil => rfl
  | cons s rest ih =>
      by_cases h0 : s = "" ∨ s = "."
      · have e1 : segComponent s = none := by simp [segComponent, h0]
        rw [List.filterMap_cons, e1, List.filter_cons,
          if_neg (by rcases h0 with h | h <;> simp [h])]
        exact ih acc
      · by_cases h1 : s = ".."
        · subst h1
          have e1 : segComponent ".." = some PathComponent.parentDir := rfl
          rw [List.filterMap_cons, e1, List.filter_cons, if_pos (by simp),
            List.foldl_cons, List.foldl_cons]
          rw [show realpathStep acc PathComponent.parentDir = acc.dropLast from rfl,
            if_pos rfl]
          exact ih acc.dropLast
        · have e1 : segComponent s = some (PathComponent.normal s) := by
            simp [segComponent, h0, h1]
          rw [List.filterMap_cons, e1, List.filter_cons, if_pos (by simpa using h0),
            List.foldl_cons, List.foldl_cons]
          rw [show realpathStep acc (PathComponent.normal s) = acc ++ [s] from rfl,
            if_neg h1]
          exact ih (acc ++ [s])

/-- **C9.** `handle_realpath` normalizes virtually exactly as the spec
describes — collapse `.`/`..` against the virtual root, leading `/` resets,
`..` at the root is a no-op, `/` when nothing remains — and on the S6 input
`"/mods/../././config"` it answers `"/config"`. -/
theorem handle_realpath_spec :
    (∀ path : String, handleRealpathNormalize path = realpathSpecNormalize path) ∧
    handleRealpathNormalize "/mods/../././config" = "/config" := by
  constructor
  · intro path
    unfold handleRealpathNormalize realpathSpecNormalize
    by_cases h : path = "" ∨ path = "."
    · rw [if_pos h]
      rcases h with rfl | rfl <;> rfl
    · rw [if_neg h]
      have hcomps :
          realpathComponents path =
            ((pathSegments path).filter (fun s => ¬(s = "" ∨ s = "."))).foldl
              (fun acc s => if s = ".." then acc.dropLast else acc ++ [s]) [] := by
        unfold realpathComponents rustComponents
        rw [List.foldl_append]
        have hroot :
            (if path.data.head? = some '/' then [PathComponent.rootDir] else []).foldl
              realpathStep [] = [] := by
          split <;> rfl
        rw [hroot, foldl_filterMap_segComponent]
      rw [hcomps]
  · rfl

/-! ## DirectoryCache — `filesystem/cache.rs`

The cache is a `HashMap<PathBuf, CachedListing>` behind a lock; it is
modelled as an association list with unique keys (iteration order is
unspecified for a `HashMap`; the model fixes insertion order, which only
matters for tie-breaks between equal `cached_at` values).  `Instant` values
are milliseconds as `Nat`; `elapsed()` is `now - cached_at` (an `Instant`
is monotone, so no wrap-around arises).  Filesystem paths are component
lists so that `Path::parent()` is `dropLast`. -/

abbrev FsPath := List String

structure CachedFileInfo where
  name : String
  path : FsPath
  size : Nat
  isDir : Bool
  mode : Nat
  modified : Nat
  deriving Repr, DecidableEq

structure CachedListing where
  entries : List CachedFileInfo
  cachedAt : Nat
  deriving Repr, DecidableEq

abbrev CacheMap := List (FsPath × CachedListing)

structure DirectoryCache where
  cache : CacheMap
  ttl : Nat
  maxEntries : Nat
  deriving Repr, DecidableEq

/-- `DirectoryCache::with_config(ttl, max_entries)` starts empty. -/
def DirectoryCache.withConfig (ttl maxEntries : Nat) : DirectoryCache :=
  { cache := [], ttl := ttl, maxEntries := maxEntries }

/-- The entry with the strictly smaller `cached_at`, preferring the first. -/
def olderPair (a b : FsPath × CachedListing) : FsPath × CachedListing :=
  if b.2.cachedAt < a.2.cachedAt then b else a

/-- `iter().min_by_key(|(_, l)| l.cached_at)`: the first entry attaining the
minimal `cached_at` (`min_by_key` keeps the earliest of equal minima). -/
def findOldestPair : CacheMap → Option (FsPath × CachedListing)
  | [] => none
  | a :: rest => some (((findOldestPair rest).map (olderPair a)).getD a)

/-- `HashMap::remove(&k)`. -/
def eraseKey (c : CacheMap) (k : FsPath) : CacheMap :=
  c.eraseP (fun p => decide (p.1 = k))

/-- `HashMap::insert(k, v)`: replace the value under an existing key,
otherwise add the pair. -/
def insertReplace (c : CacheMap) (k : FsPath) (v : CachedListing) : CacheMap :=
  if c.any (fun p => p.1 = k) then
    c.map (fun p => if p.1 = k then (k, v) else p)
  else c ++ [(k, v)]

/-- `DirectoryCache::put`: when at capacity, remove the entry with the
oldest `cached_at` (if any), then insert the fresh listing. -/
def DirectoryCache.put (d : DirectoryCache) (path : FsPath)
    (entries : List CachedFileInfo) (now : Nat) : DirectoryCache :=
  let cache :=
    if d.maxEntries ≤ d.cache.length then
      (findOldestPair d.cache).elim d.cache (fun q => eraseKey d.cache q.1)
    else d.cache
  { d with cache := insertReplace cache path { entries := entries, cachedAt := now } }

/-- `DirectoryCache::get`: the listing if present and younger than the TTL. -/
def DirectoryCache.get (d : DirectoryCache) (path : FsPath) (now : Nat) :
    Option (List CachedFileInfo) :=
  (d.cache.find? (fun p => decide (p.1 = path))).bind fun p =>
    if now - p.2.cachedAt < d.ttl then some p.2.entries else none

/-- `Path::parent()`. -/
def parentPath (p : FsPath) : Option FsPath :=
  if p.isEmpty then none else some p.dropLast

/-- `DirectoryCache::invalidate`: drop the path and its parent. -/
def DirectoryCache.invalidate (d : DirectoryCache) (path : FsPath) :
    DirectoryCache :=
  let cache := eraseKey d.cache path
  { d with cache := (parentPath path).elim cache (fun par => eraseKey cache par) }

/-- `DirectoryCache::clear`. -/
def DirectoryCache.clear (d : DirectoryCache) : DirectoryCache :=
  { d with cache := [] }

/-- The public mutators and accessors of the cache. -/
inductive CacheOp where
  | put (path : FsPath) (entries : List CachedFileInfo) (now : Nat)
  | get (path : FsPath) (now : Nat)
  | invalidate (path : FsPath)
  | clear
  deriving Repr

def applyCacheOp (d : DirectoryCache) : CacheOp → DirectoryCache
  | CacheOp.put p e n => d.put p e n
  | CacheOp.get _ _ => d
  | CacheOp.invalidate p => d.invalidate p
  | CacheOp.clear => d.clear

def runCacheOps (d : DirectoryCache) (ops : List CacheOp) : DirectoryCache :=
  ops.foldl applyCacheOp d

theorem findOldestPair_mem_min (c : CacheMap) (q : FsPath × CachedListing)
    (h : findOldestPair c = some q) :
    q ∈ c ∧ ∀ p ∈ c, q.2.cachedAt ≤ p.2.cachedAt := by
  induction c generalizing q with
  | nil => simp [findOldestPair] at h
  | cons a rest ih =>
      rw [findOldestPair] at h
      cases hr : findOldestPair rest with
      | none =>
          rw [hr] at h
          simp only [Option.map_none', Option.getD_none, Option.some_inj] at h
          subst h
          have hrest : rest = [] := by
            cases rest with
            | nil => rfl
            | cons b l => simp [findOldestPair] at hr
          subst hrest
          refine ⟨List.mem_cons_self _ _, ?_⟩
          intro p hp
          rcases List.mem_singleton.1 hp with rfl
          exact le_refl _
      | some r =>
          rw [hr] at h
          simp only [Option.map_some', Option.getD_some, Option.some_inj] at h
          subst h
          rcases ih r hr with ⟨hmem, hmin⟩
          unfold olderPair
          by_cases hlt : r.2.cachedAt < a.2.cachedAt
          · rw [if_pos hlt]
            refine ⟨List.mem_cons_of_mem _ hmem, ?_⟩
            intro p hp
            rcases List.mem_cons.1 hp with rfl | hp'
            · omega
            · exact hmin p hp'
          · rw [if_neg hlt]
            refine ⟨List.mem_cons_self _ _, ?_⟩
            intro p hp
            rcases List.mem_cons.1 hp with rfl | hp'
            · omega
            · have := hmin p hp'
              omega

theorem findOldestPair_isSome (c : CacheMap) (h : c ≠ []) :
    ∃ q, findOldestPair c = some q := by
  cases c with
  | nil => exact absurd rfl h
  | cons a rest => exact ⟨_, rfl⟩

theorem eraseKey_length_of_mem (c : CacheMap) (q : FsPath × CachedListing)
    (h : q ∈ c) : (eraseKey c q.1).length = c.length - 1 := by
  unfold eraseKey
  exact List.length_eraseP_of_mem h (by simp)

theorem insertReplace_length (c : CacheMap) (k : FsPath) (v : CachedListing) :
    (insertReplace c k v).length ≤ c.length + 1 := by
  unfold insertReplace
  split
  · simp
  · simp

theorem put_cache_length (d : DirectoryCache) (path : FsPath)
    (entries : List CachedFileInfo) (now : Nat) (hcap : 1 ≤ d.maxEntries)
    (h : d.cache.length ≤ d.maxEntries) :
    (d.put path entries now).cache.length ≤ d.maxEntries := by
  unfold DirectoryCache.put
  by_cases hful : d.maxEntries ≤ d.cache.length
  · have hne : d.cache ≠ [] := by
      intro habs
      rw [habs] at hful
      simp at hful
      omega
    rcases findOldestPair_isSome d.cache hne with ⟨q, hq⟩
    have hmem := (findOldestPair_mem_min d.cache q hq).1
    have hlen := eraseKey_length_of_mem d.cache q hmem
    have := insertReplace_length (eraseKey d.cache q.1) path
      { entries := entries, cachedAt := now }
    simp only [if_pos hful, hq, Option.elim_some]
    omega
  · have := insertReplace_length d.cache path { entries := entries, cachedAt := now }
    simp only [if_neg hful]
    omega

theorem eraseKey_length_le (c : CacheMap) (k : FsPath) :
    (eraseKey c k).length ≤ c.length := by
  unfold eraseKey
  exact List.length_eraseP_le _

theorem applyCacheOp_length (d : DirectoryCache) (op : CacheOp)
    (hcap : 1 ≤ d.maxEntries) (h : d.cache.length ≤ d.maxEntries) :
    (applyCacheOp d op).cache.length ≤ d.maxEntries := by
  cases op with
  | put p e n => exact put_cache_length d p e n hcap h
  | get _ _ => exact h
  | invalidate p =>
      unfold applyCacheOp DirectoryCache.invalidate
      cases hpar : parentPath p with
      | none =>
          simp only [hpar, Option.elim_none]
          have := eraseKey_length_le d.cache p
          omega
      | some par =>
          simp only [hpar, Option.elim_some]
          have h1 := eraseKey_length_le d.cache p
          have h2 := eraseKey_length_le (eraseKey d.cache p) par
          omega
  | clear => simp [applyCacheOp, DirectoryCache.clear]

theorem applyCacheOp_max_eq (d : DirectoryCache) (op : CacheOp) :
    (applyCacheOp d op).maxEntries = d.maxEntries := by
  cases op <;> rfl

/-- **C10, counterexample.** With `max_entries = 0`, a single `put` leaves
one cached listing: the cache is "at capacity" (`0 ≥ 0`) but empty, so
`min_by_key` finds nothing to evict and the insert overshoots the limit. -/
theorem directoryCache_zero_capacity_counterexample :
    ((DirectoryCache.withConfig 5000 0).put ["a"] [] 0).cache.length = 1 ∧
    ¬((DirectoryCache.withConfig 5000 0).put ["a"] [] 0).cache.length ≤
      (DirectoryCache.withConfig 5000 0).maxEntries := by
  constructor <;> decide

/-- **C10, amended.** For every `DirectoryCache` with `max_entries ≥ 1` and
every sequence of `put`/`get`/`invalidate`/`clear` operations, the number of
cached listings never exceeds `max_entries`; and the entry `put` evicts at
capacity is one with the minimal (oldest) `cached_at`. -/
theorem directoryCache_capacity_invariant :
    (∀ (ttl maxEntries : Nat) (ops : List CacheOp), 1 ≤ maxEntries →
      (runCacheOps (DirectoryCache.withConfig ttl maxEntries) ops).cache.length ≤
        maxEntries) ∧
    (∀ (c : CacheMap) (q : FsPath × CachedListing), findOldestPair c = some q →
      q ∈ c ∧ ∀ p ∈ c, q.2.cachedAt ≤ p.2.cachedAt) := by
  constructor
  · intro ttl maxEntries ops hcap
    suffices h : ∀ (d : DirectoryCache), d.maxEntries = maxEntries →
        d.cache.length ≤ maxEntries →
        (runCacheOps d ops).cache.length ≤ maxEntries by
      exact h (DirectoryCache.withConfig ttl maxEntries) rfl (by simp [DirectoryCache.withConfig])
    induction ops with
    | nil => intro d _ h; exact h
    | cons op rest ih =>
        intro d hmax h
        have h1 : (applyCacheOp d op).cache.length ≤ maxEntries := by
          rw [← hmax]
          exact applyCacheOp_length d op (hmax ▸ hcap) (hmax ▸ h)
        have h2 : (applyCacheOp d op).maxEntries = maxEntries := by
          rw [applyCacheOp_max_eq, hmax]
        simpa [runCacheOps] using ih (applyCacheOp d op) h2 h1
  · exact findOldestPair_mem_min

/-- Witness for the amended C10: capacity 2, three puts; and the oldest
entry of a concrete two-entry cache. -/
theorem directoryCache_capacity_invariant_witness :
    (runCacheOps (DirectoryCache.withConfig 5000 2)
        [CacheOp.put ["a"] [] 0, CacheOp.put ["b"] [] 1,
          CacheOp.put ["c"] [] 2]).cache.length ≤ 2 ∧
    ((["a"], ({ entries := [], cachedAt := 0 } : CachedListing)) ∈
        ([(["a"], { entries := [], cachedAt := 0 }),
          (["b"], { entries := [], cachedAt := 1 })] : CacheMap) ∧
      ∀ p ∈ ([(["a"], { entries := [], cachedAt := 0 }),
          (["b"], { entries := [], cachedAt := 1 })] : CacheMap),
        ({ entries := [], cachedAt := 0 } : CachedListing).cachedAt ≤ p.2.cachedAt) :=
  ⟨directoryCache_capacity_invariant.1 5000 2
      [CacheOp.put ["a"] [] 0, CacheOp.put ["b"] [] 1, CacheOp.put ["c"] [] 2]
      (by decide),
    directoryCache_capacity_invariant.2
      [(["a"], { entries := [], cachedAt := 0 }),
        (["b"], { entries := [], cachedAt := 1 })]
      (["a"], { entries := [], cachedAt := 0 }) (by decide)⟩

/-! ## SinkPool — `system/sink.rs`

The pool couples a ring history (`VecDeque<LogEntry>`) with a
`tokio::sync::broadcast` channel.  The channel is modelled after tokio's
documented semantics: `send` returns `Err(SendError)` **only when there are
no receivers**; otherwise it stores the value, the channel retains at most
`capacity` values (the oldest is overwritten), and a receiver whose next
message has been overwritten observes `Lagged` — those messages are lost to
it while the producer is never blocked.  Receivers are modelled by their
cursor (the index of the next message they will read).  Bytes are `Nat`
lists, timestamps `Int` (`i64` milliseconds). -/

structure LogEntry where
  data : List Nat
  timestamp : Int
  deriving Repr, DecidableEq

structure BroadcastChannel where
  capacity : Nat
  /-- Total number of messages ever sent. -/
  sentCount : Nat
  /-- The values still readable, oldest first; at most `capacity` of them. -/
  retained : List (List Nat)
  /-- One cursor per live receiver. -/
  receivers : List Nat
  deriving Repr, DecidableEq

/-- `broadcast::Sender::send`: fails only with zero receivers; otherwise the
value is stored and the oldest retained value beyond `capacity` is dropped. -/
def BroadcastChannel.send (ch : BroadcastChannel) (v : List Nat) :
    Bool × BroadcastChannel :=
  if ch.receivers.isEmpty then (false, ch)
  else
    let retained := ch.retained ++ [v]
    let retained := retained.drop (retained.length - ch.capacity)
    (true, { ch with sentCount := ch.sentCount + 1, retained := retained })

/-- Messages a receiver at `cursor` can no longer read (skipped by lag). -/
def BroadcastChannel.lostTo (ch : BroadcastChannel) (cursor : Nat) : Nat :=
  (ch.sentCount - ch.retained.length) - cursor

structure SinkPool where
  channel : BroadcastChannel
  ring : List LogEntry
  bufferSize : Nat
  droppedMessages : Nat
  deriving Repr, DecidableEq

/-- `SinkPool::with_buffer_size(channel_capacity, buffer_size)`; the
constructor keeps one `Receiver` of its own (`_receiver`), so the channel
starts with one receiver at cursor 0. -/
def SinkPool.withBufferSize (channelCapacity bufferSize : Nat) : SinkPool :=
  { channel :=
      { capacity := channelCapacity, sentCount := 0, retained := [], receivers := [0] }
    ring := []
    bufferSize := bufferSize
    droppedMessages := 0 }

/-- `SinkPool::new()` = `with_capacity(1024)`, ring size 500. -/
def SinkPool.new : SinkPool := SinkPool.withBufferSize 1024 500

/-- `SinkPool::subscribe`: a new receiver reading messages sent from now on. -/
def SinkPool.subscribe (p : SinkPool) : SinkPool :=
  { p with
    channel :=
      { p.channel with receivers := p.channel.receivers ++ [p.channel.sentCount] } }

/-- `SinkPool::push_with_timestamp`: append to the ring (popping the front
when full) **first**, then attempt the broadcast; a failed `send` only
increments `dropped_messages`. -/
def SinkPool.pushWithTimestamp (p : SinkPool) (data : List Nat) (timestamp : Int) :
    SinkPool :=
  let ring := if p.bufferSize ≤ p.ring.length then p.ring.drop 1 else p.ring
  let ring := ring ++ [{ data := data, timestamp := timestamp }]
  let sent := p.channel.send data
  if sent.1 then { p with ring := ring, channel := sent.2 }
  else
    { p with
      ring := ring
      channel := sent.2
      droppedMessages := p.droppedMessages + 1 }

/-- `SinkPool::clear_buffer`. -/
def SinkPool.clearBuffer (p : SinkPool) : SinkPool := { p with ring := [] }

/-- `SinkPool::dropped_message_count`. -/
def SinkPool.droppedMessageCount (p : SinkPool) : Nat := p.droppedMessages

/-- The pool operations relevant to the ring invariant. -/
inductive SinkOp where
  | push (data : List Nat) (timestamp : Int)
  | clearBuffer
  | subscribe
  deriving Repr

def applySinkOp (p : SinkPool) : SinkOp → SinkPool
  | SinkOp.push d t => p.pushWithTimestamp d t
  | SinkOp.clearBuffer => p.clearBuffer
  | SinkOp.subscribe => p.subscribe

def runSinkOps (p : SinkPool) (ops : List SinkOp) : SinkPool :=
  ops.foldl applySinkOp p

theorem pushWithTimestamp_ring (p : SinkPool) (data : List Nat) (ts : Int) :
    (p.pushWithTimestamp data ts).ring =
      (if p.bufferSize ≤ p.ring.length then p.ring.drop 1 else p.ring) ++
        [{ data := data, timestamp := ts }] := by
  unfold SinkPool.pushWithTimestamp
  cases h : (p.channel.send data).1 <;> simp [h]

theorem pushWithTimestamp_bufferSize (p : SinkPool) (data : List Nat) (ts : Int) :
    (p.pushWithTimestamp data ts).bufferSize = p.bufferSize := by
  unfold SinkPool.pushWithTimestamp
  cases h : (p.channel.send data).1 <;> simp [h]

theorem pushWithTimestamp_ring_length (p : SinkPool) (data : List Nat) (ts : Int)
    (hcap : 1 ≤ p.bufferSize) (h : p.ring.length ≤ p.bufferSize) :
    (p.pushWithTimestamp data ts).ring.length ≤ p.bufferSize := by
  rw [pushWithTimestamp_ring]
  by_cases hful : p.bufferSize ≤ p.ring.length
  · rw [if_pos hful]
    simp only [List.length_append, List.length_drop, List.length_singleton]
    omega
  · rw [if_neg hful]
    simp only [List.length_append, List.length_singleton]
    omega

theorem applySinkOp_ring_length (p : SinkPool) (op : SinkOp)
    (hcap : 1 ≤ p.bufferSize) (h : p.ring.length ≤ p.bufferSize) :
    (applySinkOp p op).ring.length ≤ p.bufferSize := by
  cases op with
  | push d t => exact pushWithTimestamp_ring_length p d t hcap h
  | clearBuffer => simp [applySinkOp, SinkPool.clearBuffer]
  | subscribe => exact h

theorem applySinkOp_bufferSize (p : SinkPool) (op : SinkOp) :
    (applySinkOp p op).bufferSize = p.bufferSize := by
  cases op with
  | push d t => exact pushWithTimestamp_bufferSize p d t
  | clearBuffer => rfl
  | subscribe => rfl

/-- **C6, counterexample.** A pool constructed with `with_buffer_size(_, 0)`
holds one ring entry after a single push: `pop_front` on the empty ring is a
no-op and `push_back` then exceeds the configured size 0. -/
theorem sinkPool_zero_buffer_counterexample :
    ((SinkPool.withBufferSize 1024 0).pushWithTimestamp [97] 0).ring.length = 1 ∧
    ¬((SinkPool.withBufferSize 1024 0).pushWithTimestamp [97] 0).ring.length ≤
      (SinkPool.withBufferSize 1024 0).bufferSize := by
  constructor <;> decide

/-- **C6, amended.** Every `push_with_timestamp` appends the entry to the
ring regardless of the broadcast outcome (so it records even with zero
subscribers and never blocks), evicting exactly the oldest entry when the
ring is full; and for every pool with configured `buffer_size ≥ 1` (the
default is 500) the ring length never exceeds `buffer_size` under any
sequence of pushes, clears and subscribes. -/
theorem sinkPool_ring_spec :
    (∀ (p : SinkPool) (data : List Nat) (ts : Int),
      (p.pushWithTimestamp data ts).ring =
        (if p.bufferSize ≤ p.ring.length then p.ring.drop 1 else p.ring) ++
          [{ data := data, timestamp := ts }]) ∧
    (∀ (channelCapacity bufferSize : Nat) (ops : List SinkOp), 1 ≤ bufferSize →
      (runSinkOps (SinkPool.withBufferSize channelCapacity bufferSize) ops).ring.length ≤
        bufferSize) := by
  constructor
  · exact pushWithTimestamp_ring
  · intro channelCapacity bufferSize ops hcap
    suffices h : ∀ (p : SinkPool), p.bufferSize = bufferSize →
        p.ring.length ≤ bufferSize →
        (runSinkOps p ops).ring.length ≤ bufferSize by
      exact h (SinkPool.withBufferSize channelCapacity bufferSize) rfl
        (by simp [SinkPool.withBufferSize])
    induction ops with
    | nil => intro p _ h; exact h
    | cons op rest ih =>
        intro p hbuf h
        have h1 : (applySinkOp p op).ring.length ≤ bufferSize := by
          rw [← hbuf]
          exact applySinkOp_ring_length p op (hbuf ▸ hcap) (hbuf ▸ h)
        have h2 : (applySinkOp p op).bufferSize = bufferSize := by
          rw [applySinkOp_bufferSize, hbuf]
        simpa [runSinkOps] using ih (applySinkOp p op) h2 h1

/-- Witness for the amended C6 at a concrete pool and op sequence. -/
theorem sinkPool_ring_spec_witness :
    ((SinkPool.withBufferSize 4 1).pushWithTimestamp [97] 0).ring =
      (if (SinkPool.withBufferSize 4 1).bufferSize ≤
          (SinkPool.withBufferSize 4 1).ring.length then
        (SinkPool.withBufferSize 4 1).ring.drop 1
      else (SinkPool.withBufferSize 4 1).ring) ++ [{ data := [97], timestamp := 0 }] ∧
    (runSinkOps (SinkPool.withBufferSize 4 1)
        [SinkOp.push [97] 0, SinkOp.push [98] 1]).ring.length ≤ 1 :=
  ⟨sinkPool_ring_spec.1 (SinkPool.withBufferSize 4 1) [97] 0,
    sinkPool_ring_spec.2 4 1 [SinkOp.push [97] 0, SinkOp.push [98] 1] (by decide)⟩

/-- **C7.** The pool's own `_receiver` keeps the broadcast channel's
receiver count positive forever, and `broadcast::Sender::send` only fails
with zero receivers, so `dropped_messages` can never be incremented by a
lagging subscriber: pushing never changes the counter while a receiver
exists.  Concretely, with channel capacity 1 and one subscriber that never
reads, two pushes make the subscriber lose the first message (lag) while
`dropped_message_count()` stays 0 — contradicting the claim that the
counter increments when a subscriber cannot keep up. -/
theorem sinkPool_dropped_counter_never_increments :
    (∀ (p : SinkPool) (data : List Nat) (ts : Int),
      p.channel.receivers.isEmpty = false →
      (p.pushWithTimestamp data ts).droppedMessageCount = p.droppedMessageCount) ∧
    (((SinkPool.withBufferSize 1 500).subscribe.pushWithTimestamp [97] 0).pushWithTimestamp
          [98] 1).channel.lostTo 0 = 1 ∧
    (((SinkPool.withBufferSize 1 500).subscribe.pushWithTimestamp [97] 0).pushWithTimestamp
          [98] 1).droppedMessageCount = 0 := by
  refine ⟨?_, by decide, by decide⟩
  intro p data ts hrecv
  unfold SinkPool.pushWithTimestamp SinkPool.droppedMessageCount
  have hsend : (p.channel.send data).1 = true := by
    unfold BroadcastChannel.send
    rw [hrecv]
    rfl
  simp [hsend]

/-- Witness for C7's universal part at a concrete pool. -/
theorem sinkPool_dropped_counter_never_increments_witness :
    ((SinkPool.new).pushWithTimestamp [97] 0).droppedMessageCount =
      (SinkPool.new).droppedMessageCount :=
  sinkPool_dropped_counter_never_increments.1 SinkPool.new [97] 0 (by decide)

/-! ## Safe archive extraction — `server/backup.rs`

`extract_backup_safe` iterates over the tar entries.  An entry path is
modelled by its Rust `Path` components (absolute flag plus
`ParentDir`/`CurDir`/`Normal` components); canonical OS paths are `String`
component lists.  The filesystem is symlink-free and abstracted by an
`exists_` predicate deciding which paths `canonicalize` succeeds on; under
no symlinks, canonicalizing `target/entry` (the entry being absolute-free
and `..`-free at that point) yields `target ++` the entry's normal
components. -/

inductive TarPathComp where
  | parentDir
  | curDir
  | normal (name : String)
  deriving Repr, DecidableEq

structure TarEntry where
  isAbsolute : Bool
  comps : List TarPathComp
  deriving Repr, DecidableEq

/-- The components `Path` keeps textually: `.` is normalized away, `..`
stays as a component, normal names stay. -/
def textComps (comps : List TarPathComp) : List String :=
  comps.filterMap fun c =>
    match c with
    | TarPathComp.parentDir => some ".."
    | TarPathComp.curDir => none
    | TarPathComp.normal n => some n

/-- `Path::parent()`: `none` only for the empty (root) path. -/
def fsParent (p : List String) : Option (List String) :=
  if p = [] then none else some p.dropLast

structure ExtractState where
  fileCount : Nat
  rejectedCount : Nat
  created : List (List String)
  deriving Repr, DecidableEq

/-- One iteration of the `extract_backup_safe` entry loop. -/
def extractEntry (exists_ : List String → Bool) (target : List String)
    (st : ExtractState) (e : TarEntry) : ExtractState :=
  if e.isAbsolute then
    { st with rejectedCount := st.rejectedCount + 1 }
  else if e.comps.contains TarPathComp.parentDir then
    { st with rejectedCount := st.rejectedCount + 1 }
  else
    let fullPath := target ++ textComps e.comps
    if exists_ fullPath then
      -- `canonicalize` succeeded; without symlinks it returns `fullPath`
      if target.isPrefixOf fullPath then
        { st with fileCount := st.fileCount + 1, created := st.created ++ [fullPath] }
      else { st with rejectedCount := st.rejectedCount + 1 }
    else
      -- the leaf does not exist yet: validate the parent instead
      (fsParent fullPath).elim
        { st with fileCount := st.fileCount + 1, created := st.created ++ [fullPath] }
        fun parent =>
          if ¬target.isPrefixOf parent ∧ parent ≠ target then
            { st with rejectedCount := st.rejectedCount + 1 }
          else
            { st with fileCount := st.fileCount + 1, created := st.created ++ [fullPath] }

/-- `extract_backup_safe(backup_path, target_dir)` over the list of archive
entries, with `target` the canonicalized target directory. -/
def extractBackupSafe (exists_ : List String → Bool) (target : List String)
    (entries : List TarEntry) : ExtractState :=
  entries.foldl (extractEntry exists_ target) { fileCount := 0, rejectedCount := 0, created := [] }

/-- An entry the claim requires to be skipped. -/
def badEntry (e : TarEntry) : Bool :=
  e.isAbsolute || e.comps.contains TarPathComp.parentDir

theorem extractEntry_counts (exists_ : List String → Bool) (target : List String)
    (st : ExtractState) (e : TarEntry) :
    (extractEntry exists_ target st e).fileCount +
        (extractEntry exists_ target st e).rejectedCount =
      st.fileCount + st.rejectedCount + 1 := by
  unfold extractEntry
  split
  · rfl
  · split
    · rfl
    · dsimp only
      split
      · split <;> simp <;> omega
      · cases hp : fsParent (target ++ textComps e.comps) with
        | none => simp [hp]; omega
        | some parent =>
            simp only [hp, Option.elim_some]
            split <;> simp <;> omega

theorem extractEntry_created (exists_ : List String → Bool) (target : List String)
    (st : ExtractState) (e : TarEntry) :
    ∀ p ∈ (extractEntry exists_ target st e).created,
      p ∈ st.created ∨ target <+: p := by
  intro p hp
  unfold extractEntry at hp
  have hfull : target <+: target ++ textComps e.comps := List.prefix_append _ _
  split at hp
  · exact Or.inl hp
  · split at hp
    · exact Or.inl hp
    · dsimp only at hp
      split at hp
      · split at hp
        · rcases List.mem_append.1 hp with h | h
          · exact Or.inl h
          · rcases List.mem_singleton.1 h with rfl
            exact Or.inr hfull
        · exact Or.inl hp
      · rcases hq : fsParent (target ++ textComps e.comps) with _ | parent
        · rw [hq] at hp
          simp only [Option.elim_none] at hp
          rcases List.mem_append.1 hp with h | h
          · exact Or.inl h
          · rcases List.mem_singleton.1 h with rfl
            exact Or.inr hfull
        · rw [hq] at hp
          simp only [Option.elim_some] at hp
          split at hp
          · exact Or.inl hp
          · rcases List.mem_append.1 hp with h | h
            · exact Or.inl h
            · rcases List.mem_singleton.1 h with rfl
              exact Or.inr hfull

theorem extractEntry_bad_rejected (exists_ : List String → Bool) (target : List String)
    (st : ExtractState) (e : TarEntry) (h : badEntry e = true) :
    (extractEntry exists_ target st e).rejectedCount = st.rejectedCount + 1 := by
  unfold badEntry at h
  unfold extractEntry
  rcases Bool.or_eq_true_iff.1 h with h1 | h1
  · rw [if_pos h1]
  · by_cases h2 : e.isAbsolute = true
    · rw [if_pos h2]
    · rw [if_neg h2, if_pos h1]

theorem extractEntry_rejected_le (exists_ : List String → Bool) (target : List String)
    (st : ExtractState) (e : TarEntry) :
    st.rejectedCount ≤ (extractEntry exists_ target st e).rejectedCount := by
  unfold extractEntry
  split
  · simp
  · split
    · simp
    · dsimp only
      split
      · split <;> simp
      · cases hp : fsParent (target ++ textComps e.comps) with
        | none => simp [hp]
        | some parent =>
            simp only [hp, Option.elim_some]
            split <;> simp

theorem extract_fold_invariant (exists_ : List String → Bool) (target : List String)
    (entries : List TarEntry) : ∀ st : ExtractState,
    (entries.foldl (extractEntry exists_ target) st).fileCount +
        (entries.foldl (extractEntry exists_ target) st).rejectedCount =
      st.fileCount + st.rejectedCount + entries.length ∧
    (∀ p ∈ (entries.foldl (extractEntry exists_ target) st).created,
      p ∈ st.created ∨ target <+: p) ∧
    st.rejectedCount + entries.countP badEntry ≤
      (entries.foldl (extractEntry exists_ target) st).rejectedCount := by
  induction entries with
  | nil =>
      intro st
      refine ⟨by simp, fun p hp => Or.inl hp, by simp⟩
  | cons e rest ih =>
      intro st
      rcases ih (extractEntry exists_ target st e) with ⟨ihc, ihp, ihr⟩
      refine ⟨?_, ?_, ?_⟩
      · rw [List.foldl_cons, ihc, extractEntry_counts]
        simp [Nat.add_assoc, Nat.add_comm, Nat.add_left_comm]
      · intro p hp
        rw [List.foldl_cons] at hp
        rcases ihp p hp with h | h
        · exact extractEntry_created exists_ target st e p h
        · exact Or.inr h
      · rw [List.foldl_cons]
        rw [List.countP_cons]
        by_cases hbad : badEntry e = true
        · have hstep := extractEntry_bad_rejected exists_ target st e hbad
          simp only [hbad, if_true]
          omega
        · have hle := extractEntry_rejected_le exists_ target st e
          have hb : badEntry e = false := Bool.eq_false_iff.mpr hbad
          simp only [hb, Bool.false_eq_true, if_false]
          omega

/-- **C1.** For every archive and target directory (and any pattern of
already-existing paths), safe extraction processes every entry without
aborting, rejects (and counts) every entry whose path is absolute or
contains a `..` component, creates files only at paths inside the target
directory, and the extracted-file count equals the number of entries minus
the rejected count. -/
theorem extract_backup_safe_spec (exists_ : List String → Bool)
    (target : List String) (entries : List TarEntry) :
    (extractBackupSafe exists_ target entries).fileCount +
        (extractBackupSafe exists_ target entries).rejectedCount =
      entries.length ∧
    (∀ p ∈ (extractBackupSafe exists_ target entries).created, target <+: p) ∧
    entries.countP badEntry ≤ (extractBackupSafe exists_ target entries).rejectedCount := by
  rcases extract_fold_invariant exists_ target entries
      { fileCount := 0, rejectedCount := 0, created := [] } with ⟨hc, hp, hr⟩
  refine ⟨by simpa using hc, ?_, by simpa using hr⟩
  intro p hmem
  rcases hp p hmem with h | h
  · simp at h
  · exact h

/-- Witness for C1: the S4 archive `[../../etc/passwd, mods/config.yml]`
extracted into `/srv/data` — one rejection, one file, created only inside
the target. -/
theorem extract_backup_safe_spec_witness :
    (extractBackupSafe (fun _ => false) ["srv", "data"]
          [{ isAbsolute := false
             comps := [TarPathComp.parentDir, TarPathComp.parentDir,
               TarPathComp.normal "etc", TarPathComp.normal "passwd"] },
           { isAbsolute := false
             comps := [TarPathComp.normal "mods",
               TarPathComp.normal "config.yml"] }]).fileCount +
        (extractBackupSafe (fun _ => false) ["srv", "data"]
          [{ isAbsolute := false
             comps := [TarPathComp.parentDir, TarPathComp.parentDir,
               TarPathComp.normal "etc", TarPathComp.normal "passwd"] },
           { isAbsolute := false
             comps := [TarPathComp.normal "mods",
               TarPathComp.normal "config.yml"] }]).rejectedCount = 2 ∧
    ["srv", "data"] <+: ["srv", "data", "mods", "config.yml"] := by
  have h := extract_backup_safe_spec (fun _ => false) ["srv", "data"]
    [{ isAbsolute := false
       comps := [TarPathComp.parentDir, TarPathComp.parentDir,
         TarPathComp.normal "etc", TarPathComp.normal "passwd"] },
     { isAbsolute := false
       comps := [TarPathComp.normal "mods", TarPathComp.normal "config.yml"] }]
  exact ⟨h.1, h.2.1 ["srv", "data", "mods", "config.yml"] (by decide)⟩

/-! ## Transfer receive — `server/transfer.rs`

`receive_transfer_archive` performs file-system effects in a fixed order;
the state tracks the files of the transfer archive directory and of the
server data directory (name/path ↦ bytes).  `sha256` over the stored bytes
and the unpacking of a well-formed archive into files are abstracted as
function parameters `hash` and `parse`; bytes are `Nat` lists. -/

inductive TransferError where
  | io (msg : String)
  | serverRunning
  | alreadyTransferring
  | http (msg : String)
  | archive (msg : String)
  | invalidPath (msg : String)
  | checksumMismatch
  | other (msg : String)
  deriving Repr, DecidableEq

structure TransferFs where
  /-- Files under the transfer archive directory: filename ↦ bytes. -/
  archiveFiles : List (String × List Nat)
  /-- Files under the server data directory: relative path ↦ bytes. -/
  dataFiles : List (List String × List Nat)
  deriving Repr, DecidableEq

/-- `File::create` + `write_all`: create or truncate the named file. -/
def writeArchiveFile (fs : TransferFs) (name : String) (bytes : List Nat) :
    TransferFs :=
  { fs with
    archiveFiles :=
      if fs.archiveFiles.any (fun p => p.1 = name) then
        fs.archiveFiles.map (fun p => if p.1 = name then (name, bytes) else p)
      else fs.archiveFiles ++ [(name, bytes)] }

/-- `fs::remove_file` on the archive directory. -/
def removeArchiveFile (fs : TransferFs) (name : String) : TransferFs :=
  { fs with archiveFiles := fs.archiveFiles.filter (fun p => ¬p.1 = name) }

/-- `Archive::unpack(data_dir)`: materialize the parsed entries. -/
def unpackInto (fs : TransferFs) (entries : List (List String × List Nat)) :
    TransferFs :=
  { fs with dataFiles := fs.dataFiles ++ entries }

/-- `receive_transfer_archive(server_uuid, transfer_id, archive_data,
expected_checksum, data_dir, archive_dir, truncate, event_bus)`: write the
body to `transfer-{id}.tar.gz` under the archive dir, recompute the
checksum, reject (removing the temp file) on mismatch, otherwise optionally
truncate the data dir, extract, and clean up. -/
def receiveTransferArchive (hash : List Nat → String)
    (parse : List Nat → List (List String × List Nat)) (transferId : String)
    (archiveData : List Nat) (expectedChecksum : String) (truncate : Bool)
    (fs : TransferFs) : Except TransferError Unit × TransferFs :=
  let archiveName := "transfer-" ++ transferId ++ ".tar.gz"
  let fs := writeArchiveFile fs archiveName archiveData
  let actualChecksum := hash archiveData
  if actualChecksum ≠ expectedChecksum then
    (Except.error TransferError.checksumMismatch, removeArchiveFile fs archiveName)
  else
    let fs := if truncate then { fs with dataFiles := [] } else fs
    let fs := unpackInto fs (parse archiveData)
    (Except.ok (), removeArchiveFile fs archiveName)

/-- **C2.** Whenever the sha256 of the received body differs from the
expected checksum header, `receive_transfer_archive` returns the
`ChecksumMismatch` error, the temporary archive file it wrote is no longer
present afterwards, and the data directory's files are exactly what they
were before — neither truncated nor extracted into. -/
theorem receive_transfer_archive_checksum_spec (hash : List Nat → String)
    (parse : List Nat → List (List String × List Nat)) (transferId : String)
    (archiveData : List Nat) (expectedChecksum : String) (truncate : Bool)
    (fs : TransferFs) (hmismatch : hash archiveData ≠ expectedChecksum) :
    (receiveTransferArchive hash parse transferId archiveData expectedChecksum
        truncate fs).1 = Except.error TransferError.checksumMismatch ∧
    ¬(receiveTransferArchive hash parse transferId archiveData expectedChecksum
        truncate fs).2.archiveFiles.any
        (fun p => p.1 = "transfer-" ++ transferId ++ ".tar.gz") ∧
    (receiveTransferArchive hash parse transferId archiveData expectedChecksum
        truncate fs).2.dataFiles = fs.dataFiles := by
  unfold receiveTransferArchive
  rw [if_pos hmismatch]
  refine ⟨rfl, ?_, rfl⟩
  intro hany
  rcases List.any_eq_true.1 hany with ⟨p, hp, hpn⟩
  unfold removeArchiveFile at hp
  simp only at hp
  have := List.of_mem_filter hp
  simp only [decide_eq_true_eq] at hpn
  rw [hpn] at this
  simp at this

/-- Witness for C2 at a concrete mismatching transfer. -/
theorem receive_transfer_archive_checksum_spec_witness :
    (receiveTransferArchive (fun _ => "aaaa") (fun _ => []) "t1" [1, 2, 3] "bbbb"
        true { archiveFiles := [], dataFiles := [(["w"], [9])] }).1 =
      Except.error TransferError.checksumMismatch ∧
    ¬(receiveTransferArchive (fun _ => "aaaa") (fun _ => []) "t1" [1, 2, 3] "bbbb"
        true { archiveFiles := [], dataFiles := [(["w"], [9])] }).2.archiveFiles.any
        (fun p => p.1 = "transfer-" ++ "t1" ++ ".tar.gz") ∧
    (receiveTransferArchive (fun _ => "aaaa") (fun _ => []) "t1" [1, 2, 3] "bbbb"
        true { archiveFiles := [], dataFiles := [(["w"], [9])] }).2.dataFiles =
      ({ archiveFiles := [], dataFiles := [(["w"], [9])] } : TransferFs).dataFiles :=
  receive_transfer_archive_checksum_spec (fun _ => "aaaa") (fun _ => []) "t1"
    [1, 2, 3] "bbbb" true { archiveFiles := [], dataFiles := [(["w"], [9])] }
    (by decide)

/-! ## Backup creation events — `server/backup.rs`

`create_backup_with_config` publishes `BackupStarted`, runs
`create_backup_blocking` on the blocking pool, and publishes
`BackupCompleted { successful: true, .. }` only after the blocking part
returned `Ok`; an `Err` is propagated with `?` straight to the caller.  The
blocking part's outcome (the file I/O, compression and checksumming) is the
`blockingResult` parameter.  The event type is modelled from its
construction sites in `backup.rs` and `events/redis.rs` (the `events`
module itself is not under `src/`); `removedFiles` records every
`fs::remove_file`-style deletion the function performs — there are none on
any path. -/

inductive BackupError where
  | io (msg : String)
  | serverRunning
  | notFound (uuid : String)
  | invalidPath (msg : String)
  | other (msg : String)
  deriving Repr, DecidableEq

structure BackupResult where
  path : List String
  size : Nat
  checksum : String
  deriving Repr, DecidableEq

inductive BackupEvent where
  | backupStarted (uuid : String)
  | backupCompleted (uuid : String) (successful : Bool) (checksum : Option String)
      (size : Nat)
  deriving Repr, DecidableEq

structure BackupRunOutcome where
  events : List BackupEvent
  removedFiles : List (List String)
  result : Except BackupError BackupResult
  deriving Repr

/-- `create_backup_with_config` around the `spawn_blocking` call. -/
def createBackupWithConfig (backupUuid : String)
    (blockingResult : Except BackupError BackupResult) : BackupRunOutcome :=
  let events := [BackupEvent.backupStarted backupUuid]
  match blockingResult with
  | Except.error e => { events := events, removedFiles := [], result := Except.error e }
  | Except.ok r =>
      { events := events ++
          [BackupEvent.backupCompleted backupUuid true (some r.checksum) r.size]
        removedFiles := []
        result := Except.ok r }

/-- **C3, counterexample.** When the blocking part fails, the function emits
only `BackupStarted` — no `BackupCompleted { successful: false }` — and
removes no file: the error is returned to the caller with `?`
(`backup.rs:206-216`), skipping the completion event and any cleanup. -/
theorem create_backup_error_counterexample :
    (createBackupWithConfig "b1" (Except.error (BackupError.other "gzip failed"))).events =
      [BackupEvent.backupStarted "b1"] ∧
    (createBackupWithConfig "b1" (Except.error (BackupError.other "gzip failed"))).removedFiles =
      [] ∧
    (createBackupWithConfig "b1" (Except.error (BackupError.other "gzip failed"))).result =
      Except.error (BackupError.other "gzip failed") := by
  exact ⟨rfl, rfl, rfl⟩

/-- **C3, amended.** On success `create_backup_with_config` emits
`BackupStarted` then `BackupCompleted{successful: true}` carrying the
checksum and size; on any error of the blocking archive/checksum phase it
returns the error to its caller without emitting any `BackupCompleted`
event and without removing the partial output file. -/
theorem createBackupWithConfig_events :
    (∀ (uuid : String) (r : BackupResult),
      (createBackupWithConfig uuid (Except.ok r)).events =
        [BackupEvent.backupStarted uuid,
          BackupEvent.backupCompleted uuid true (some r.checksum) r.size] ∧
      (createBackupWithConfig uuid (Except.ok r)).removedFiles = [] ∧
      (createBackupWithConfig uuid (Except.ok r)).result = Except.ok r) ∧
    (∀ (uuid : String) (e : BackupError),
      (createBackupWithConfig uuid (Except.error e)).events =
        [BackupEvent.backupStarted uuid] ∧
      (createBackupWithConfig uuid (Except.error e)).removedFiles = [] ∧
      (createBackupWithConfig uuid (Except.error e)).result = Except.error e) := by
  exact ⟨fun uuid r => ⟨rfl, rfl, rfl⟩, fun uuid e => ⟨rfl, rfl, rfl⟩⟩

end StellarStack
